import Mathlib

/-!
Shallow embedding of the query-serving core of `src/api2.js` (an Express +
SQLite leaderboard API).  Rows, tables and the database are modelled as Lean
structures; each endpoint's SQL and JavaScript post-processing is translated
into executable list functions.  SQLite's documented semantics for the few
built-ins the queries use (`strftime('%s', ...)`, `DATE(...)`, `TRIM`, `LIKE`
with a trailing `%`, `MAX` over TEXT, `ORDER BY ... LIMIT 1`, `GROUP BY`) are
modelled explicitly below, for the timestamp formats this system stores
(`datetime('now')` stamps of shape `YYYY-MM-DD HH:MM:SS`, see `src/fetch2.js`).
-/

/-! ## Characters and strings -/

/-- JavaScript `s.substring(0, n)` on a string (`api2.js` uses it with n = 13). -/
def strTake (s : String) (n : Nat) : String := ⟨s.data.take n⟩

/-- Prefix test on character lists. -/
def startsWithL : List Char → List Char → Bool
  | [], _ => true
  | _ :: _, [] => false
  | p :: ps, c :: cs => p = c && startsWithL ps cs

/-- Sub-list (contiguous) test on character lists, for SQL `LIKE concat of percent p percent`. -/
def containsL (pat : List Char) : List Char → Bool
  | [] => startsWithL pat []
  | c :: cs => startsWithL pat (c :: cs) || containsL pat cs

/-- Model of SQL `x LIKE (p likewise followed by a percent sign)`: `p` is a prefix of `x`.
SQLite LIKE is ASCII-case-insensitive and treats certain characters as
wildcards; every pattern built by `api2.js` and exercised below consists of
digits, dashes, spaces and colons (or is compared against such data), on which
plain prefix comparison coincides with SQLite's semantics. -/
def likePrefix (pat s : String) : Bool := startsWithL pat.data s.data

/-- Model of SQL `x LIKE (percent p percent)` (substring match), same caveats. -/
def likeContains (pat s : String) : Bool := containsL pat.data s.data

/-- One space-trim step: drop leading and trailing spaces from a char list
(SQL `TRIM(x)` strips spaces; the JavaScript `.trim()` calls in `api2.js` are
applied to values already trimmed by SQL, where it agrees). -/
def trimL (l : List Char) : List Char :=
  ((l.dropWhile (fun c => c = ' ')).reverse.dropWhile (fun c => c = ' ')).reverse

/-- Space-trim on strings. -/
def trimSp (s : String) : String := ⟨trimL s.data⟩

/-- Lexicographic comparison of character lists by codepoint — the order
SQLite's BINARY collation gives TEXT values (identical on the ASCII data this
system stores). -/
def charListLt : List Char → List Char → Bool
  | [], [] => false
  | [], _ :: _ => true
  | _ :: _, [] => false
  | a :: as, b :: bs => a.toNat < b.toNat || (a.toNat = b.toNat && charListLt as bs)

/-- TEXT-column comparison. -/
def strLt (a b : String) : Bool := charListLt a.data b.data

/-- JavaScript truthiness of an optional query-string parameter:
absent and empty strings are falsy. -/
def isTruthy : Option String → Bool
  | none => false
  | some s => s ≠ ""

/-! ## Timestamps (model of SQLite date-time built-ins)

All timestamps this system stores are written by `datetime('now')` in
`src/fetch2.js`, i.e. have shape `YYYY-MM-DD HH:MM:SS`.  We model
`strftime('%s', x)` on the three accepted space-separated shapes
(date, date+`HH:MM`, date+`HH:MM:SS`) with calendar-valid components and
post-1970 years, returning `none` (SQL NULL) otherwise. -/

def digVal (c : Char) : Nat := c.toNat - 48

def twoDig (a b : Char) : Nat := 10 * digVal a + digVal b

def fourDig (a b c d : Char) : Nat :=
  1000 * digVal a + 100 * digVal b + 10 * digVal c + digVal d

def isLeap (y : Nat) : Bool := (y % 4 = 0 && y % 100 ≠ 0) || y % 400 = 0

def daysInMonth (y m : Nat) : Nat :=
  if m = 2 then (if isLeap y then 29 else 28)
  else if m = 4 || m = 6 || m = 9 || m = 11 then 30
  else 31

/-- Days in year `y` strictly before month `m` (1-based). -/
def daysBeforeMonth (y m : Nat) : Nat :=
  (List.range (m - 1)).foldl (fun acc i => acc + daysInMonth y (i + 1)) 0

/-- Leap days up to and including year `n`. -/
def leapsThrough (n : Nat) : Nat := n / 4 - n / 100 + n / 400

/-- Days from 1970-01-01 to `y`-`m`-`d` (years from 1970 on). -/
def daysFromEpoch (y m d : Nat) : Nat :=
  365 * (y - 1970) + (leapsThrough (y - 1) - leapsThrough 1969)
    + daysBeforeMonth y m + (d - 1)

def mkEpoch (y mo d h mi s : Nat) : Nat :=
  daysFromEpoch y mo d * 86400 + h * 3600 + mi * 60 + s

def validDate (y mo d : Nat) : Bool :=
  1970 ≤ y && 1 ≤ mo && mo ≤ 12 && 1 ≤ d && d ≤ daysInMonth y mo

def epochCore (y1 y2 y3 y4 o1 o2 d1 d2 h1 h2 n1 n2 p1 p2 : Char) : Option Nat :=
  if ([y1, y2, y3, y4, o1, o2, d1, d2, h1, h2, n1, n2, p1, p2].all Char.isDigit) then
    let y := fourDig y1 y2 y3 y4
    let mo := twoDig o1 o2
    let d := twoDig d1 d2
    let h := twoDig h1 h2
    let mi := twoDig n1 n2
    let se := twoDig p1 p2
    if validDate y mo d && h ≤ 23 && mi ≤ 59 && se ≤ 59 then
      some (mkEpoch y mo d h mi se)
    else none
  else none

/-- Model of SQLite `strftime('%s', x)`: seconds since the epoch, or `none`
(SQL NULL) when the string is not a well-formed time string.  SQLite's full
grammar also accepts `T`-separated, time-only, fractional-second,
timezone-suffixed and julian-day forms — every one of which contains a
digit — plus the keyword `now`; the theorems below that reason about
unparseable input therefore restrict themselves to digit-free strings other
than `now`, on which this model and SQLite agree (both reject). -/
def epochOf (s : String) : Option Nat :=
  match s.data with
  | [y1, y2, y3, y4, '-', o1, o2, '-', d1, d2] =>
      epochCore y1 y2 y3 y4 o1 o2 d1 d2 '0' '0' '0' '0' '0' '0'
  | [y1, y2, y3, y4, '-', o1, o2, '-', d1, d2, ' ', h1, h2, ':', n1, n2] =>
      epochCore y1 y2 y3 y4 o1 o2 d1 d2 h1 h2 n1 n2 '0' '0'
  | [y1, y2, y3, y4, '-', o1, o2, '-', d1, d2, ' ', h1, h2, ':', n1, n2, ':', p1, p2] =>
      epochCore y1 y2 y3 y4 o1 o2 d1 d2 h1 h2 n1 n2 p1 p2
  | _ => none

/-- Model of SQLite `DATE(x)`: the calendar-day part, or `none` on NULL /
unparseable input. -/
def sqliteDate (s : String) : Option String :=
  match epochOf s with
  | some _ => some (strTake s 10)
  | none => none

/-- `ABS(strftime(a) - strftime(b))` with SQL NULL propagation. -/
def absDiff (a b : Option Nat) : Option Nat :=
  match a, b with
  | some x, some y => some (max x y - min x y)
  | _, _ => none

/-- Strict order on nullable numbers as SQLite sorts them ascending:
NULL sorts before every number. -/
def optNatLt : Option Nat → Option Nat → Bool
  | none, none => false
  | none, some _ => true
  | some _, none => false
  | some a, some b => a < b

def optNatLe (a b : Option Nat) : Bool := !optNatLt b a

theorem optNatLt_irr (a : Option Nat) : optNatLt a a = false := by
  cases a <;> simp [optNatLt]

theorem optNatLt_trans (a b c : Option Nat) (h1 : optNatLt a b = true)
    (h2 : optNatLt b c = true) : optNatLt a c = true := by
  cases a <;> cases b <;> cases c <;> first
  | (simp_all [optNatLt]; omega)
  | simp_all [optNatLt]

theorem optNatLt_mix (a b c : Option Nat) (h1 : optNatLt a c = true)
    (h2 : optNatLt a b = false) : optNatLt b c = true := by
  cases a <;> cases b <;> cases c <;> first
  | (simp_all [optNatLt]; omega)
  | simp_all [optNatLt]


/-! ## Recognized input precisions of the time resolver (`api2.js` lines 52-66). -/

/-- The regex `^(four digits)-(two)-(two)$` of `api2.js` line 56. -/
def matchDateOnly (s : String) : Bool :=
  match s.data with
  | [y1, y2, y3, y4, '-', o1, o2, '-', d1, d2] =>
      [y1, y2, y3, y4, o1, o2, d1, d2].all Char.isDigit
  | _ => false

/-- The regex of `api2.js` line 60: date, space, two-digit hour. -/
def matchDateHour (s : String) : Bool :=
  match s.data with
  | [y1, y2, y3, y4, '-', o1, o2, '-', d1, d2, ' ', h1, h2] =>
      [y1, y2, y3, y4, o1, o2, d1, d2, h1, h2].all Char.isDigit
  | _ => false

/-- The regex of `api2.js` line 64: date, space, `HH:MM`. -/
def matchDateHourMinute (s : String) : Bool :=
  match s.data with
  | [y1, y2, y3, y4, '-', o1, o2, '-', d1, d2, ' ', h1, h2, ':', n1, n2] =>
      [y1, y2, y3, y4, o1, o2, d1, d2, h1, h2, n1, n2].all Char.isDigit
  | _ => false

/-- Full-precision shape `YYYY-MM-DD HH:MM:SS` (all digits in place).  This is
the third recognized precision: `api2.js` passes such input through unpadded. -/
def matchFullTs (s : String) : Bool :=
  match s.data with
  | [y1, y2, y3, y4, '-', o1, o2, '-', d1, d2, ' ', h1, h2, ':', n1, n2, ':', p1, p2] =>
      [y1, y2, y3, y4, o1, o2, d1, d2, h1, h2, n1, n2, p1, p2].all Char.isDigit
  | _ => false

/-! ## Generic association-list accumulator

`GROUP BY` with an aggregate, the JavaScript `Map` in the dedup endpoint and
the JavaScript object `chartData` all fold rows into a key-indexed collection
whose keys keep first-encounter order and whose entry for a key combines the
key's rows left to right.  `upsert` is that single fold step. -/

section Assoc

variable {κ α β : Type} [DecidableEq κ]

/-- Insert value `v` at key `k`, combining with an existing entry in place. -/
def upsert (combine : α → α → α) (k : κ) (v : α) : List (κ × α) → List (κ × α)
  | [] => [(k, v)]
  | (k', v') :: rest =>
      if k' = k then (k', combine v' v) :: rest
      else (k', v') :: upsert combine k v rest

/-- First value stored at key `k`. -/
def alookup (k : κ) : List (κ × α) → Option α
  | [] => none
  | (k', v') :: rest => if k' = k then some v' else alookup k rest

/-- Fold a row list into an association list keyed by `key`, entries combined
left to right by `combine`. -/
def accumulate (combine : α → α → α) (key : β → κ) (val : β → α) (rows : List β) :
    List (κ × α) :=
  rows.foldl (fun acc r => upsert combine (key r) (val r) acc) []

/-- The values at key `k` among `rows`, in order. -/
def groupVals (key : β → κ) (val : β → α) (k : κ) (rows : List β) : List α :=
  rows.filterMap (fun r => if key r = k then some (val r) else none)

/-- Left fold of `combine` over a nonempty group, `none` on the empty one:
the value `accumulate` ends up storing for a key. -/
def groupFold (combine : α → α → α) : List α → Option α
  | [] => none
  | v :: vs => some (vs.foldl combine v)

theorem alookup_upsert (combine : α → α → α) (k k' : κ) (v : α) (acc : List (κ × α)) :
    alookup k (upsert combine k' v acc) =
      if k' = k then
        match alookup k acc with
        | some w => some (combine w v)
        | none => some v
      else alookup k acc := by
  induction acc with
  | nil =>
      by_cases h : k' = k <;> simp [upsert, alookup, h]
  | cons p rest ih =>
      obtain ⟨k₀, v₀⟩ := p
      by_cases h0 : k₀ = k'
      · subst h0
        by_cases h1 : k₀ = k <;> simp [upsert, alookup, h1]
      · by_cases h1 : k' = k
        · subst h1
          simp [upsert, alookup, h0, ih]
        · by_cases h2 : k₀ = k
          · subst h2
            simp [upsert, alookup, h0, h1, ih]
          · simp [upsert, alookup, h0, h1, h2, ih]

theorem keys_upsert (combine : α → α → α) (k : κ) (v : α) (acc : List (κ × α)) :
    (upsert combine k v acc).map Prod.fst =
      if k ∈ acc.map Prod.fst then acc.map Prod.fst else acc.map Prod.fst ++ [k] := by
  induction acc with
  | nil => simp [upsert]
  | cons p rest ih =>
      obtain ⟨k₀, v₀⟩ := p
      by_cases h0 : k₀ = k
      · simp [upsert, h0]
      · have hne : k ≠ k₀ := fun h => h0 h.symm
        by_cases hmem : k ∈ rest.map Prod.fst <;>
          simp [upsert, h0, ih, hmem, hne]

theorem nodup_keys_upsert (combine : α → α → α) (k : κ) (v : α) (acc : List (κ × α))
    (h : (acc.map Prod.fst).Nodup) : ((upsert combine k v acc).map Prod.fst).Nodup := by
  rw [keys_upsert]
  by_cases hmem : k ∈ acc.map Prod.fst
  · simpa [hmem] using h
  · simpa [hmem, List.nodup_append] using h

theorem nodup_keys_accumulate (combine : α → α → α) (key : β → κ) (val : β → α)
    (rows : List β) : ((accumulate combine key val rows).map Prod.fst).Nodup := by
  suffices h : ∀ acc : List (κ × α), (acc.map Prod.fst).Nodup →
      ((rows.foldl (fun acc r => upsert combine (key r) (val r) acc) acc).map Prod.fst).Nodup by
    exact h [] (by simp)
  induction rows with
  | nil => intro acc hacc; simpa using hacc
  | cons r rest ih =>
      intro acc hacc
      exact ih _ (nodup_keys_upsert _ _ _ _ hacc)

theorem alookup_foldl_upsert (combine : α → α → α) (key : β → κ) (val : β → α)
    (rows : List β) : ∀ (acc : List (κ × α)) (k : κ),
    alookup k (rows.foldl (fun acc r => upsert combine (key r) (val r) acc) acc) =
      match alookup k acc with
      | some w => some ((groupVals key val k rows).foldl combine w)
      | none => groupFold combine (groupVals key val k rows) := by
  induction rows with
  | nil =>
      intro acc k
      cases hacc : alookup k acc <;> simp [groupVals, groupFold, hacc]
  | cons r rest ih =>
      intro acc k
      by_cases hk : key r = k
      · have hstep := alookup_upsert combine k (key r) (val r) acc
        rw [List.foldl_cons, ih, hstep]
        cases hacc : alookup k acc <;>
          simp [groupVals, groupFold, hk, List.filterMap_cons]
      · have hstep := alookup_upsert combine k (key r) (val r) acc
        rw [List.foldl_cons, ih, hstep]
        simp [groupVals, hk, List.filterMap_cons]

theorem alookup_accumulate (combine : α → α → α) (key : β → κ) (val : β → α)
    (rows : List β) (k : κ) :
    alookup k (accumulate combine key val rows) =
      groupFold combine (groupVals key val k rows) := by
  have h := alookup_foldl_upsert combine key val rows [] k
  simpa [accumulate, alookup] using h

theorem alookup_eq_some_of_mem {l : List (κ × α)} {k : κ} {v : α}
    (hnd : (l.map Prod.fst).Nodup) (hmem : (k, v) ∈ l) : alookup k l = some v := by
  induction l with
  | nil => cases hmem
  | cons p rest ih =>
      obtain ⟨k₀, v₀⟩ := p
      rcases List.mem_cons.mp hmem with heq | htail
      · obtain ⟨h1, h2⟩ := Prod.mk.injEq .. ▸ heq
        simp_all [alookup]
      · have hk : k₀ ≠ k := by
          rintro rfl
          have : k₀ ∈ rest.map Prod.fst := by
            exact List.mem_map.mpr ⟨(k₀, v), htail, rfl⟩
          simp_all
        simp [alookup, hk, ih (by simpa using hnd.of_cons) htail]

theorem mem_of_alookup_eq_some {l : List (κ × α)} {k : κ} {v : α}
    (h : alookup k l = some v) : (k, v) ∈ l := by
  induction l with
  | nil => simp [alookup] at h
  | cons p rest ih =>
      obtain ⟨k₀, v₀⟩ := p
      by_cases hk : k₀ = k
      · subst hk
        simp [alookup] at h
        simp [h]
      · simp [alookup, hk] at h
        exact List.mem_cons_of_mem _ (ih h)

end Assoc

/-! ## Ordering models

`ORDER BY` over a whole result set is modelled by a stable insertion sort
(SQLite fixes only the key order; the stable choice resolves ties the way the
claims never depend on).  `ORDER BY ... LIMIT 1` is modelled by `firstBest`,
which keeps the first row attaining the extremal key. -/

section Sorting

variable {α : Type}

/-- Insert `x` after every element `y` with `cont y x = true` (read: `y` may
stay before `x`). -/
def insSorted (cont : α → α → Bool) (x : α) : List α → List α
  | [] => [x]
  | y :: ys => if cont y x then y :: insSorted cont x ys else x :: y :: ys

/-- Stable insertion sort; `cont y x = true` keeps `y` (the earlier element)
before `x`. -/
def sortL (cont : α → α → Bool) (l : List α) : List α :=
  l.foldl (fun acc x => insSorted cont x acc) []

theorem insSorted_perm (cont : α → α → Bool) (x : α) (l : List α) :
    (insSorted cont x l).Perm (x :: l) := by
  induction l with
  | nil => simp [insSorted]
  | cons y ys ih =>
      by_cases h : cont y x
      · simp only [insSorted, h, if_pos]
        exact (ih.cons y).trans (List.Perm.swap x y ys)
      · simp [insSorted, h]

theorem foldl_insSorted_perm (cont : α → α → Bool) :
    ∀ (l acc : List α), (l.foldl (fun acc x => insSorted cont x acc) acc).Perm (acc ++ l) := by
  intro l
  induction l with
  | nil => simp
  | cons x xs ih =>
      intro acc
      have h1 := ih (insSorted cont x acc)
      have h2 : (insSorted cont x acc ++ xs).Perm ((x :: acc) ++ xs) :=
        (insSorted_perm cont x acc).append_right xs
      have h3 : (acc ++ x :: xs).Perm (x :: (acc ++ xs)) := List.perm_middle
      simp only [List.foldl_cons]
      exact (h1.trans h2).trans h3.symm

theorem sortL_perm (cont : α → α → Bool) (l : List α) : (sortL cont l).Perm l := by
  simpa using foldl_insSorted_perm cont l []

/-- Model of `ORDER BY key LIMIT 1`: the first element no later element
strictly beats.  `better x m = true` reads: `x` sorts strictly before `m`. -/
def firstBest (better : α → α → Bool) (l : List α) : Option α :=
  l.foldl (fun acc x =>
    match acc with
    | none => some x
    | some m => if better x m then some x else some m) none

theorem foldl_firstBest_some (better : α → α → Bool) :
    ∀ (l : List α) (c : α),
      ∃ m, (l.foldl (fun acc x =>
          match acc with
          | none => some x
          | some m => if better x m then some x else some m) (some c)) = some m ∧
        m ∈ c :: l := by
  intro l
  induction l with
  | nil => exact fun c => ⟨c, rfl, by simp⟩
  | cons x xs ih =>
      intro c
      by_cases h : better x c
      · obtain ⟨m, hm, hmem⟩ := ih x
        refine ⟨m, by simpa [h] using hm, ?_⟩
        simp only [List.mem_cons] at hmem ⊢
        tauto
      · obtain ⟨m, hm, hmem⟩ := ih c
        refine ⟨m, by simpa [h] using hm, ?_⟩
        simp only [List.mem_cons] at hmem ⊢
        tauto

theorem firstBest_mem (better : α → α → Bool) (l : List α) (hne : l ≠ []) :
    ∃ m, firstBest better l = some m ∧ m ∈ l := by
  cases l with
  | nil => exact absurd rfl hne
  | cons c cs =>
      obtain ⟨m, hm, hmem⟩ := foldl_firstBest_some better cs c
      exact ⟨m, hm, hmem⟩

/-- The element returned by `firstBest` minimizes the order, provided `better`
is irreflexive, transitive and co-total. -/
theorem foldl_firstBest_min (better : α → α → Bool)
    (hirr : ∀ a, better a a = false)
    (htrans : ∀ a b c, better a b = true → better b c = true → better a c = true)
    (hmix : ∀ a b c, better a c = true → better a b = false → better b c = true) :
    ∀ (l : List α) (c : α) (m : α),
      (l.foldl (fun acc x =>
          match acc with
          | none => some x
          | some m => if better x m then some x else some m) (some c)) = some m →
        ∀ x ∈ c :: l, better x m = false := by
  intro l
  induction l with
  | nil =>
      intro c m hm x hx
      simp at hm hx
      subst hm
      subst hx
      exact hirr x
  | cons z zs ih =>
      intro c m hm x hx
      by_cases hz : better z c
      · have hm' := ih z m (by simpa [hz] using hm)
        rcases List.mem_cons.mp hx with rfl | hx'
        · have hzm : better z m = false := hm' z (by simp)
          cases hxm : better x m
          · rfl
          · exact absurd (htrans z x m hz hxm) (by simp [hzm])
        · exact hm' x hx'
      · have hm' := ih c m (by simpa [hz] using hm)
        rcases List.mem_cons.mp hx with rfl | hx'
        · exact hm' x (by simp)
        · rcases List.mem_cons.mp hx' with rfl | hx''
          · have hcm : better c m = false := hm' c (by simp)
            cases hxm : better x m
            · rfl
            · exact absurd (hmix x c m hxm (by simpa using hz)) (by simp [hcm])
          · exact hm' x (by simp [hx''])

theorem firstBest_min (better : α → α → Bool)
    (hirr : ∀ a, better a a = false)
    (htrans : ∀ a b c, better a b = true → better b c = true → better a c = true)
    (hmix : ∀ a b c, better a c = true → better a b = false → better b c = true)
    (l : List α) (m : α) (hm : firstBest better l = some m) :
    ∀ x ∈ l, better x m = false := by
  cases l with
  | nil => simp [firstBest] at hm
  | cons c cs =>
      exact foldl_firstBest_min better hirr htrans hmix cs c m hm

end Sorting

/-! ## Fold helpers -/

theorem foldl_append_flatten {α : Type} :
    ∀ (l : List (List α)) (a : List α), l.foldl (fun x y => x ++ y) a = a ++ l.flatten := by
  intro l
  induction l with
  | nil => simp
  | cons x xs ih => intro a; simp [ih, List.append_assoc]

theorem groupFold_append_singletons {α β : Type} (f : β → α) :
    ∀ (g : List β), g ≠ [] →
      groupFold (fun x y => x ++ y) (g.map (fun r => [f r])) = some (g.map f) := by
  intro g hg
  cases g with
  | nil => exact absurd rfl hg
  | cons r rs =>
      simp [groupFold, foldl_append_flatten]
      induction rs with
      | nil => simp
      | cons a as ih => simp [ih]

theorem filterMap_if_eq_map_filter {α β : Type} (p : α → Bool) (f : α → β) (l : List α) :
    l.filterMap (fun x => if p x then some (f x) else none) = (l.filter p).map f := by
  induction l with
  | nil => rfl
  | cons x xs ih =>
      by_cases h : p x <;> simp [List.filterMap_cons, List.filter_cons, h, ih]

/-! ## Data model

One logical row shape for all four snapshot tables.  `XBLTotal` stores these
under real column names; `XBLTotal1/2/3` store the same thirteen positions
under generic names `field1..field13` (see `getColumnName`); rows are modelled
at the logical level and the generic naming is carried by the column-existence
flags and by `getColumnName` itself.  Every column is nullable in SQLite,
hence the `Option` fields. -/

structure Row where
  id : Option Int := none
  leaderboard_id : Option Int := none
  rank : Option Int := none
  name : Option String := none
  first_place_finishes : Option Int := none
  second_place_finishes : Option Int := none
  third_place_finishes : Option Int := none
  races_completed : Option Int := none
  kudos_rank : Option Int := none
  kudos : Option Int := none
  folder_date : Option String := none
  data_date : Option String := none
  sync_id : Option String := none
deriving DecidableEq

/-- A physical snapshot table: which of the four chart-relevant columns its
schema has, plus its rows. -/
structure TableData where
  hasName : Bool := true
  hasSyncId : Bool := true
  hasFolderDate : Bool := true
  hasKudos : Bool := true
  rows : List Row := []
deriving DecidableEq

/-- The SQLite database `xbltotal.db`: the always-present `XBLTotal` and
`Sync` tables (created by the ingestion side) and the optional anonymized
tables `XBLTotal1/2/3`.  `sync` rows are `(sync_id, sync_date)` pairs. -/
structure DB where
  xbltotal : TableData
  xbltotal1 : Option TableData := none
  xbltotal2 : Option TableData := none
  xbltotal3 : Option TableData := none
  sync : List (String × String) := []
deriving DecidableEq

inductive TableId where
  | xbltotal
  | xbltotal1
  | xbltotal2
  | xbltotal3
deriving DecidableEq

/-- Iteration order of `Object.keys(tableChecks)` in the chart endpoint. -/
def tableOrder : List TableId := [.xbltotal, .xbltotal1, .xbltotal2, .xbltotal3]

def tableNameOf : TableId → String
  | .xbltotal => "XBLTotal"
  | .xbltotal1 => "XBLTotal1"
  | .xbltotal2 => "XBLTotal2"
  | .xbltotal3 => "XBLTotal3"

def DB.table (db : DB) : TableId → Option TableData
  | .xbltotal => some db.xbltotal
  | .xbltotal1 => db.xbltotal1
  | .xbltotal2 => db.xbltotal2
  | .xbltotal3 => db.xbltotal3

def tableRows (db : DB) (t : TableId) : List Row :=
  match db.table t with
  | some td => td.rows
  | none => []

/-- The table names present in `sqlite_master` for this database. -/
def existingTables (db : DB) : List String :=
  ["XBLTotal", "Sync"]
    ++ (if db.xbltotal1.isSome then ["XBLTotal1"] else [])
    ++ (if db.xbltotal2.isSome then ["XBLTotal2"] else [])
    ++ (if db.xbltotal3.isSome then ["XBLTotal3"] else [])

/-- The allow-list pattern of `api2.js` line 222: `^[a-zA-Z0-9_]+$`. -/
def allowListOk (s : String) : Bool :=
  s ≠ "" && s.data.all (fun c => c.isAlphanum || c = '_')

/-- `tableExists` (`api2.js` lines 207-215): a parameterized lookup in
`sqlite_master` — the name is bound, never interpolated. -/
def tableExists (db : DB) (tableName : String) : Bool :=
  decide (tableName ∈ existingTables db)

/-- Physical columns of `XBLTotal` (real names; presence of the four
chart-relevant ones tracked by the flags). -/
def realCols (td : TableData) : List String :=
  ["id", "leaderboard_id", "rank", "first_place_finishes", "second_place_finishes",
    "third_place_finishes", "races_completed", "kudos_rank", "data_date"]
    ++ (if td.hasName then ["name"] else [])
    ++ (if td.hasSyncId then ["sync_id"] else [])
    ++ (if td.hasFolderDate then ["folder_date"] else [])
    ++ (if td.hasKudos then ["kudos"] else [])

/-- Physical columns of the generic tables `XBLTotal1/2/3`. -/
def genCols (td : TableData) : List String :=
  ["field1", "field2", "field3", "field5", "field6", "field7", "field8", "field9", "field12"]
    ++ (if td.hasName then ["field4"] else [])
    ++ (if td.hasKudos then ["field10"] else [])
    ++ (if td.hasFolderDate then ["field11"] else [])
    ++ (if td.hasSyncId then ["field13"] else [])

/-- `columnExists` (`api2.js` lines 218-231): the table name is checked
against the allow-list before it is ever interpolated into the `PRAGMA`
text; a failed check means `false` without touching the database.
`PRAGMA table_info` on an absent table yields no rows, hence `false`. -/
def columnExists (db : DB) (tableName columnName : String) : Bool :=
  if !allowListOk tableName then false
  else if tableName = "XBLTotal" then (realCols db.xbltotal).contains columnName
  else if tableName = "XBLTotal1" then
    match db.xbltotal1 with
    | some td => (genCols td).contains columnName
    | none => false
  else if tableName = "XBLTotal2" then
    match db.xbltotal2 with
    | some td => (genCols td).contains columnName
    | none => false
  else if tableName = "XBLTotal3" then
    match db.xbltotal3 with
    | some td => (genCols td).contains columnName
    | none => false
  else if tableName = "Sync" then ["sync_id", "sync_date"].contains columnName
  else false

/-- `getColumnName` (`api2.js` lines 234-262). -/
def getColumnName (tableName logicalColumnName : String) : String :=
  let fieldMapping : String → Option String := fun l =>
    if l = "id" then some "field1"
    else if l = "leaderboard_id" then some "field2"
    else if l = "rank" then some "field3"
    else if l = "name" then some "field4"
    else if l = "first_place_finishes" then some "field5"
    else if l = "second_place_finishes" then some "field6"
    else if l = "third_place_finishes" then some "field7"
    else if l = "races_completed" then some "field8"
    else if l = "kudos_rank" then some "field9"
    else if l = "kudos" then some "field10"
    else if l = "folder_date" then some "field11"
    else if l = "data_date" then some "field12"
    else if l = "sync_id" then some "field13"
    else none
  if tableName = "XBLTotal1" || tableName = "XBLTotal2" || tableName = "XBLTotal3" then
    match fieldMapping logicalColumnName with
    | some f => f
    | none => logicalColumnName
  else logicalColumnName

/-- `getLatestSyncId` (`api2.js` lines 34-37):
`SELECT sync_id FROM Sync ORDER BY sync_date DESC LIMIT 1`. -/
def getLatestSyncId (db : DB) : Option String :=
  (firstBest (fun a b => strLt b.2 a.2) db.sync).map Prod.fst

/-! ## Time resolver (`getClosestFolderDateHour`, `api2.js` lines 48-107)

The function receives the (URL-decoded) date parameter. -/

/-- The padding chain of `api2.js` lines 52-66. -/
def padTarget (decodedDate : String) : String :=
  if matchDateOnly decodedDate then decodedDate ++ " 12:00:00"
  else if matchDateHour decodedDate then decodedDate ++ ":00:00"
  else if matchDateHourMinute decodedDate then decodedDate ++ ":00"
  else decodedDate

/-- The non-NULL `folder_date` values of `XBLTotal` in row order — the only
pool both resolver queries read (both subqueries say `FROM XBLTotal`). -/
def poolOf (db : DB) : List String :=
  db.xbltotal.rows.filterMap (fun r => r.folder_date)

def timeDiff (target fd : String) : Option Nat :=
  absDiff (epochOf fd) (epochOf target)

def getClosestFolderDateHour (db : DB) (decodedDate : String) : Option String :=
  let targetDateTime := padTarget decodedDate
  let targetDateHour := strTake targetDateTime 13
  let exactRows := (poolOf db).filter (fun fd => likePrefix targetDateHour fd)
  let found : Option String :=
    match exactRows.head? with
    | some fd => some fd
    | none =>
        firstBest (fun a b => optNatLt (timeDiff targetDateTime a) (timeDiff targetDateTime b))
          (poolOf db)
  found.map (fun fd => strTake fd 13)

/-! ## Listing endpoint (`GET /api2/xbltotal`, `api2.js` lines 110-187) -/

structure ListQuery where
  name : Option String := none
  folder_date : Option String := none
  data_date : Option String := none
  sync_id : Option String := none
  all : Option String := none

/-- `getClosestDate` (`api2.js` lines 40-45) for a nullable string column of
`XBLTotal`. -/
def getClosestDate (rows : List Row) (col : Row → Option String) (targetDate : String) :
    Option String :=
  firstBest (fun a b => optNatLt (timeDiff targetDate a) (timeDiff targetDate b))
    (rows.filterMap col)

def listXbltotal (db : DB) (q : ListQuery) : List Row :=
  let useLatestSync :=
    !isTruthy q.sync_id && !isTruthy q.folder_date && !isTruthy q.data_date
      && q.all ≠ some "true"
  let latest : Option String :=
    if useLatestSync then getLatestSyncId db else none
  let cond : Row → Bool := fun r =>
    (if isTruthy q.name then
      match q.name, r.name with
      | some pat, some v => likeContains pat v
      | _, _ => false
     else true)
    && (if isTruthy q.sync_id then r.sync_id = q.sync_id else true)
    && (match latest with
        | some sid => r.sync_id = some sid
        | none => true)
  let rows := db.xbltotal.rows.filter cond
  let rows :=
    if isTruthy q.folder_date then
      match getClosestDate db.xbltotal.rows (fun r => r.folder_date)
          ((q.folder_date).getD "") with
      | some c => rows.filter (fun r => r.folder_date = some c)
      | none => rows
    else rows
  let rows :=
    if isTruthy q.data_date then
      match getClosestDate db.xbltotal.rows (fun r => r.data_date)
          ((q.data_date).getD "") with
      | some c => rows.filter (fun r => r.data_date = some c)
      | none => rows
    else rows
  rows

/-! ## Chart endpoint (`GET /api2/xbltotal/chart`, `api2.js` lines 265-429) -/

/-- The per-table capability record filled by the loop at lines 275-292. -/
structure TableChecks where
  present : Bool
  hasName : Bool
  hasSyncId : Bool
  hasFolderDate : Bool
  hasKudos : Bool
deriving DecidableEq

def chartChecks (db : DB) (t : TableId) : TableChecks :=
  let n := tableNameOf t
  if !tableExists db n then ⟨false, false, false, false, false⟩
  else
    match t with
    | .xbltotal =>
        ⟨true, columnExists db n "name", columnExists db n "sync_id",
          columnExists db n "folder_date", columnExists db n "kudos"⟩
    | _ =>
        ⟨true, columnExists db n "field4", columnExists db n "field13",
          columnExists db n "field11", columnExists db n "field10"⟩

/-- Tables included in the top-10 union (line 303: exists, name, sync_id,
kudos). -/
def top10Tables (db : DB) : List TableId :=
  tableOrder.filter (fun t =>
    let c := chartChecks db t
    c.present && c.hasName && c.hasSyncId && c.hasKudos)

/-- Tables included in the historical-data union (line 347: exists, name,
folder_date, kudos — `sync_id` not required). -/
def histTables (db : DB) : List TableId :=
  tableOrder.filter (fun t =>
    let c := chartChecks db t
    c.present && c.hasName && c.hasFolderDate && c.hasKudos)

/-- The bound parameter of each top-10 union arm: `latestSyncId || ''`. -/
def syncParam (db : DB) : String := (getLatestSyncId db).getD ""

/-- Rows of the top-10 union
(`SELECT name, kudos FROM t WHERE sync_id = ?` per qualifying table). -/
def topPool (db : DB) : List (Option String × Option Int) :=
  ((top10Tables db).map (fun t =>
    ((tableRows db t).filter (fun r => r.sync_id = some (syncParam db))).map
      (fun r => (r.name, r.kudos)))).flatten

/-- SQL `MAX` aggregation step over a nullable numeric column. -/
def sqlMaxCombine : Option Int → Option Int → Option Int
  | none, b => b
  | some a, none => some a
  | some a, some b => some (max a b)

/-- SQL `MAX` over a group's values. -/
def sqlMaxList (l : List (Option Int)) : Option Int := l.foldl sqlMaxCombine none

/-- `GROUP BY name` with `MAX(kudos)`. -/
def top10Groups (db : DB) : List (Option String × Option Int) :=
  accumulate sqlMaxCombine Prod.fst Prod.snd (topPool db)

/-- Strict comparison of nullable numbers, NULL smallest (SQLite). -/
def optIntLt : Option Int → Option Int → Bool
  | none, none => false
  | none, some _ => true
  | some _, none => false
  | some a, some b => a < b

/-- `ORDER BY max_kudos DESC LIMIT 10` over the grouped rows, then the
early-return when no table qualifies (line 313). -/
def selectTop10 (db : DB) : List (Option String × Option Int) :=
  if top10Tables db = [] then []
  else (sortL (fun y x => !optIntLt y.2 x.2) (top10Groups db)).take 10

def top10Users (db : DB) : List (Option String) := (selectTop10 db).map Prod.fst

/-- A row of the historical-data union after its `WHERE` clause
(`folder_date IS NOT NULL AND name IS NOT NULL AND name != '' AND name IN
(...)`), projected onto `(folder_date, name, kudos)`. -/
structure HRow where
  fd : String
  hname : String
  kudos : Option Int
deriving DecidableEq

def histPart (db : DB) (users : List (Option String)) (t : TableId) : List HRow :=
  (tableRows db t).filterMap (fun r =>
    match r.folder_date, r.name with
    | some fd, some n =>
        if n ≠ "" && users.contains (some n) then some ⟨fd, n, r.kudos⟩ else none
    | _, _ => none)

def histPool (db : DB) (users : List (Option String)) : List HRow :=
  ((histTables db).map (histPart db users)).flatten

/-- SQL `MAX` over TEXT values (binary collation = codepoint order here). -/
def maxStr (a b : String) : String := if strLt a b then b else a

/-- The `t2` subquery: group the union by `(TRIM(name), DATE(folder_date))`
keeping `MAX(folder_date)`, with its `WHERE ... TRIM(...) != ''` filter. -/
def t2acc (db : DB) (users : List (Option String)) : List ((String × Option String) × String) :=
  accumulate maxStr (fun h => (trimSp h.hname, sqliteDate h.fd)) (fun h => h.fd)
    ((histPool db users).filter (fun h => trimSp h.hname ≠ ""))

/-- The `INNER JOIN` of `t1` with `t2` (`api2.js` lines 370-393): a union row
survives iff its trimmed name is non-empty and its `folder_date` equals its
group's maximum (a NULL `DATE` never joins). -/
def histJoin (db : DB) (users : List (Option String)) : List HRow :=
  (histPool db users).filter (fun h =>
    trimSp h.hname ≠ "" &&
    match sqliteDate h.fd with
    | none => false
    | some d => decide (alookup (trimSp h.hname, some d) (t2acc db users) = some h.fd))

/-- One selected row: `DATE(folder_date) as date, TRIM(name) as name, kudos`. -/
structure CRow where
  cdate : Option String
  cname : String
  ckudos : Option Int
deriving DecidableEq

def chartSelect (db : DB) (users : List (Option String)) : List CRow :=
  (histJoin db users).map (fun h => ⟨sqliteDate h.fd, trimSp h.hname, h.kudos⟩)

/-- Strict comparison of nullable strings, NULL smallest (SQLite). -/
def optStrLt : Option String → Option String → Bool
  | none, none => false
  | none, some _ => true
  | some _, none => false
  | some a, some b => strLt a b

/-- `ORDER BY date ASC, name ASC`: may `y` stay before an incoming `x`? -/
def crowKeep (y x : CRow) : Bool :=
  optStrLt y.cdate x.cdate || (y.cdate = x.cdate && !strLt x.cname y.cname)

def chartRows (db : DB) (users : List (Option String)) : List CRow :=
  sortL crowKeep (chartSelect db users)

/-- The `rows.forEach` fold of lines 404-421 building the `chartData` object:
keys in first-encounter insertion order, per-key point lists in row order,
`kudos || 0` coalescing. -/
def buildChartData (rows : List CRow) : List (String × List (Option String × Int)) :=
  rows.foldl (fun acc row =>
    if row.cname = "" then acc
    else
      let userName := trimSp row.cname
      if userName = "" then acc
      else upsert (fun a b => a ++ b) userName [(row.cdate, row.ckudos.getD 0)] acc) []

def chartEndpoint (db : DB) : List (String × List (Option String × Int)) :=
  if top10Tables db = [] then []
  else if selectTop10 db = [] then []
  else if histTables db = [] then []
  else buildChartData (chartRows db (top10Users db))

/-- The per-user series the chart response carries for `userName`. -/
def seriesFor (db : DB) (userName : String) : List (Option String × Int) :=
  (alookup userName (chartEndpoint db)).getD []

/-! ## Date endpoint (`GET /api2/xbltotal/:date`, `api2.js` lines 431-499) -/

/-- The replacement test of lines 480-484:
`currentDate && (!existingDate || currentDate > existingDate)`, where a date
is `null` when `folder_date` is SQL NULL or the empty string, and an
unparseable non-empty string gives an invalid date whose comparisons are all
false. -/
def replCond (existing current : Row) : Bool :=
  match current.folder_date with
  | none => false
  | some c =>
      c ≠ "" &&
      (match existing.folder_date with
       | none => true
       | some e =>
           e = "" ||
           (match epochOf c, epochOf e with
            | some vc, some ve => decide (ve < vc)
            | _, _ => false))

def pickLater (existing current : Row) : Row :=
  if replCond existing current then current else existing

/-- The `nameMap` fold of lines 469-489: skip falsy names, insertion-ordered
map keyed by name, later rows replacing per `replCond`; then
`Array.from(nameMap.values())`. -/
def dedupeByName (rows : List Row) : List Row :=
  (rows.foldl (fun acc r =>
    match r.name with
    | none => acc
    | some n => if n = "" then acc else upsert pickLater n r acc) []).map Prod.snd

def getByDate (db : DB) (dateParam : String) : Option (List Row) :=
  match getClosestFolderDateHour db dateParam with
  | none => none
  | some closestHour =>
      let rows := db.xbltotal.rows.filter (fun r =>
        match r.folder_date with
        | some fd => likePrefix closestHour fd
        | none => false)
      let dedup := dedupeByName rows
      if dedup = [] then none else some dedup

/-! ## Replacement-fold lemmas (for the dedup resolver) -/

section PickFold

variable {α : Type}

theorem foldl_pick_mem (pick : α → α → α) (hp : ∀ a x, pick a x = a ∨ pick a x = x) :
    ∀ (l : List α) (c : α), l.foldl pick c ∈ c :: l := by
  intro l
  induction l with
  | nil => intro c; simp
  | cons z zs ih =>
      intro c
      have h1 := ih (pick c z)
      rcases hp c z with he | he <;> rw [List.foldl_cons, he] <;> rw [he] at h1 <;>
        simp only [List.mem_cons] at h1 ⊢ <;> tauto

theorem foldl_pick_congr (f g : α → α → Bool) :
    ∀ (l : List α) (c : α),
      (∀ a ∈ c :: l, ∀ b ∈ c :: l, f a b = g a b) →
      l.foldl (fun a x => if f a x then x else a) c =
        l.foldl (fun a x => if g a x then x else a) c := by
  intro l
  induction l with
  | nil => intro c _; rfl
  | cons z zs ih =>
      intro c hfg
      have hcz : f c z = g c z := hfg c (by simp) z (by simp)
      simp only [List.foldl_cons]
      rw [hcz]
      by_cases h : g c z = true
      · rw [if_pos h]
        exact ih z (fun a ha b hb =>
          hfg a (by simp only [List.mem_cons] at ha ⊢; tauto)
            b (by simp only [List.mem_cons] at hb ⊢; tauto))
      · rw [if_neg h]
        exact ih c (fun a ha b hb =>
          hfg a (by simp only [List.mem_cons] at ha ⊢; tauto)
            b (by simp only [List.mem_cons] at hb ⊢; tauto))

/-- Where the left fold of a replace-if-strictly-better step lands inside the
list: everything before the result is strictly beaten by it, nothing after it
beats it — i.e. the fold keeps the first element attaining the maximum. -/
theorem foldl_pick_decomp (better : α → α → Bool)
    (htrans : ∀ a b c, better a b = true → better b c = true → better a c = true)
    (hmix : ∀ a b c, better a c = true → better a b = false → better b c = true) :
    ∀ (l : List α) (c res : α),
      l.foldl (fun a x => if better a x then x else a) c = res →
      ∃ l₁ l₂, c :: l = l₁ ++ res :: l₂ ∧
        (∀ x ∈ l₁, better x res = true) ∧
        (∀ x ∈ l₂, better res x = false) := by
  intro l
  induction l with
  | nil =>
      intro c res hres
      simp only [List.foldl_nil] at hres
      subst hres
      exact ⟨[], [], rfl, by simp, by simp⟩
  | cons z zs ih =>
      intro c res hres
      simp only [List.foldl_cons] at hres
      by_cases hz : better c z = true
      · rw [if_pos hz] at hres
        obtain ⟨l₁, l₂, heq, hl1, hl2⟩ := ih z res hres
        cases l₁ with
        | nil =>
            simp only [List.nil_append] at heq
            injection heq with h1 h2
            subst h1
            subst h2
            exact ⟨[c], zs, rfl, by simpa using hz, hl2⟩
        | cons a t =>
            simp only [List.cons_append] at heq
            injection heq with h1 h2
            subst h1
            refine ⟨c :: z :: t, l₂, by simp [h2], ?_, hl2⟩
            intro x hx
            rcases List.mem_cons.mp hx with rfl | hx'
            · exact htrans x z res hz (hl1 z (by simp))
            · exact hl1 x hx'
      · rw [if_neg hz] at hres
        obtain ⟨l₁, l₂, heq, hl1, hl2⟩ := ih c res hres
        cases l₁ with
        | nil =>
            simp only [List.nil_append] at heq
            injection heq with h1 h2
            subst h1
            subst h2
            refine ⟨[], z :: zs, rfl, by simp, ?_⟩
            intro x hx
            rcases List.mem_cons.mp hx with rfl | hx'
            · simpa using hz
            · exact hl2 x hx'
        | cons a t =>
            simp only [List.cons_append] at heq
            injection heq with h1 h2
            subst h1
            refine ⟨c :: z :: t, l₂, by simp [h2], ?_, hl2⟩
            intro x hx
            rcases List.mem_cons.mp hx with rfl | hx'
            · exact hl1 x (by simp)
            · rcases List.mem_cons.mp hx' with rfl | hx''
              · exact hmix c x res (hl1 c (by simp)) (by simpa using hz)
              · exact hl1 x (by simp [hx''])

end PickFold

theorem groupVals_eq_map_filter {κ α β : Type} [DecidableEq κ]
    (key : β → κ) (val : β → α) (k : κ) (l : List β) :
    groupVals key val k l = (l.filter (fun r => key r = k)).map val := by
  induction l with
  | nil => rfl
  | cons x xs ih =>
      by_cases h : key x = k <;>
        simp [groupVals, List.filterMap_cons, List.filter_cons, h, ih] <;>
        simp [groupVals] at ih <;> exact ih

/-! ## Trim and filter helpers -/

theorem dropWhile_dropWhile {α : Type} (p : α → Bool) (l : List α) :
    (l.dropWhile p).dropWhile p = l.dropWhile p := by
  induction l with
  | nil => rfl
  | cons c cs ih =>
      by_cases h : p c
      · simp [List.dropWhile_cons, h, ih]
      · simp [List.dropWhile_cons, h]

theorem dropWhile_of_prefix {α : Type} (p : α → Bool) {t u : List α} (htu : t <+: u)
    (hu : u.dropWhile p = u) : t.dropWhile p = t := by
  obtain ⟨s, rfl⟩ := htu
  cases t with
  | nil => rfl
  | cons c t' =>
      by_cases h : p c
      · exfalso
        have h1 : (c :: t' ++ s).dropWhile p = (t' ++ s).dropWhile p := by
          simp [List.dropWhile_cons, h]
        rw [h1] at hu
        have h2 : ((t' ++ s).dropWhile p).length ≤ (t' ++ s).length :=
          (List.dropWhile_sublist _).length_le
        rw [hu] at h2
        simp at h2
      · simp [List.dropWhile_cons, h]

theorem trimL_idem (l : List Char) : trimL (trimL l) = trimL l := by
  unfold trimL
  have hu : ∀ m : List Char,
      (m.dropWhile (fun c => c = ' ')).dropWhile (fun c => c = ' ') =
        m.dropWhile (fun c => c = ' ') := fun m => dropWhile_dropWhile _ m
  have hsuffix : ((l.dropWhile (fun c => c = ' ')).reverse.dropWhile (fun c => c = ' ')) <:+
      (l.dropWhile (fun c => c = ' ')).reverse := List.dropWhile_suffix _
  have hvprefix : ((l.dropWhile (fun c => c = ' ')).reverse.dropWhile
      (fun c => c = ' ')).reverse <+: l.dropWhile (fun c => c = ' ') := by
    obtain ⟨s, hs⟩ := hsuffix
    refine ⟨s.reverse, ?_⟩
    have h3 := congrArg List.reverse hs
    simpa [List.reverse_append] using h3
  have hA := dropWhile_of_prefix (fun c => c = ' ') hvprefix (hu l)
  rw [hA, List.reverse_reverse, hu]

theorem trimSp_idem (s : String) : trimSp (trimSp s) = trimSp s := by
  show (⟨trimL (trimL s.data)⟩ : String) = ⟨trimL s.data⟩
  rw [trimL_idem]

theorem filter_filter_implied {β : Type} (p q : β → Bool)
    (himp : ∀ b, q b = true → p b = true) (l : List β) :
    (l.filter p).filter q = l.filter q := by
  induction l with
  | nil => rfl
  | cons x xs ih =>
      by_cases hq : q x
      · simp [List.filter_cons, himp x hq, hq, ih]
      · by_cases hp : p x <;> simp [List.filter_cons, hp, hq, ih]

/-! ## Chart series characterization (for C4) -/

/-- SQL `MAX` over the TEXT values of a group. -/
def sqlMaxText (l : List String) : String :=
  match l with
  | [] => ""
  | x :: xs => xs.foldl maxStr x

/-- The pooled union rows of entity `n` on calendar day `day` — the group the
`t2` subquery aggregates for that entity and day. -/
def dayGroup (db : DB) (n day : String) : List HRow :=
  (histPool db (top10Users db)).filter
    (fun h => trimSp h.hname = n && sqliteDate h.fd = some day)

theorem buildChartData_eq_accumulate (rows : List CRow) :
    buildChartData rows =
      accumulate (fun a b => a ++ b) (fun row => trimSp row.cname)
        (fun row => [(row.cdate, row.ckudos.getD 0)])
        (rows.filter (fun row => row.cname ≠ "" && trimSp row.cname ≠ "")) := by
  unfold buildChartData accumulate
  suffices h : ∀ acc : List (String × List (Option String × Int)),
      rows.foldl (fun acc row =>
        if row.cname = "" then acc
        else
          let userName := trimSp row.cname
          if userName = "" then acc
          else upsert (fun a b => a ++ b) userName [(row.cdate, row.ckudos.getD 0)] acc) acc =
      (rows.filter (fun row => row.cname ≠ "" && trimSp row.cname ≠ "")).foldl
        (fun acc row => upsert (fun a b => a ++ b) (trimSp row.cname)
          [(row.cdate, row.ckudos.getD 0)] acc) acc by
    exact h []
  induction rows with
  | nil => intro acc; rfl
  | cons row rest ih =>
      intro acc
      by_cases h1 : row.cname = ""
      · simp [List.filter_cons, h1, ih]
      · by_cases h2 : trimSp row.cname = ""
        · simp [List.filter_cons, h1, h2, ih]
        · simp [List.filter_cons, h1, h2, ih]

/-- The per-user series carried by the built chart object: the kept rows of
that (trimmed) user name, in row order, projected to (date, kudos-or-0). -/
theorem series_char (rows : List CRow) (u : String) (hu : u ≠ "") :
    (alookup u (buildChartData rows)).getD [] =
      (rows.filter (fun row => trimSp row.cname = u)).map
        (fun row => (row.cdate, row.ckudos.getD 0)) := by
  rw [buildChartData_eq_accumulate, alookup_accumulate, groupVals_eq_map_filter]
  have himp : ∀ row : CRow, (decide (trimSp row.cname = u)) = true →
      (row.cname ≠ "" && trimSp row.cname ≠ "") = true := by
    intro row hrow
    have htr : trimSp row.cname = u := of_decide_eq_true hrow
    have hcn : row.cname ≠ "" := by
      intro hcn0
      rw [hcn0] at htr
      exact hu ((show trimSp "" = "" from rfl) ▸ htr).symm
    simp [hcn, htr, hu]
  rw [filter_filter_implied _ _ himp]
  cases hfil : rows.filter (fun row => decide (trimSp row.cname = u)) with
  | nil => rfl
  | cons x xs =>
      rw [groupFold_append_singletons (fun row : CRow => (row.cdate, row.ckudos.getD 0))
        (x :: xs) (by simp)]
      rfl

theorem histPart_nil_users (db : DB) (t : TableId) : histPart db [] t = [] := by
  rw [histPart, List.filterMap_eq_nil_iff]
  intro r _
  rcases r.folder_date with _ | fd <;> rcases hrn : r.name with _ | nm <;>
    simp [hrn, List.contains]

/-- Once the pooled historical union is non-empty, every early return of the
chart endpoint is passed. -/
theorem chartEndpoint_run (db : DB) (hpool : histPool db (top10Users db) ≠ []) :
    chartEndpoint db = buildChartData (chartRows db (top10Users db)) := by
  have hhist : histTables db ≠ [] := by
    intro he
    exact hpool (by simp [histPool, he])
  have husers : top10Users db ≠ [] := by
    intro he
    exact hpool (by simp [histPool, he, histPart_nil_users])
  have hsel : selectTop10 db ≠ [] := by
    intro he
    exact husers (by simp [top10Users, he])
  have htab : top10Tables db ≠ [] := by
    intro he
    exact hsel (by simp [selectTop10, he])
  simp [chartEndpoint, htab, hsel, hhist]

/-! ## Shape lemmas for the recognized input precisions -/

theorem matchDateOnly_shape {s : String} (h : matchDateOnly s = true) :
    ∃ y1 y2 y3 y4 o1 o2 d1 d2,
      s.data = [y1, y2, y3, y4, '-', o1, o2, '-', d1, d2] ∧
      [y1, y2, y3, y4, o1, o2, d1, d2].all Char.isDigit = true := by
  unfold matchDateOnly at h
  split at h
  · next y1 y2 y3 y4 o1 o2 d1 d2 heq =>
      exact ⟨y1, y2, y3, y4, o1, o2, d1, d2, heq, h⟩
  · exact absurd h (by simp)

theorem matchDateHour_shape {s : String} (h : matchDateHour s = true) :
    ∃ y1 y2 y3 y4 o1 o2 d1 d2 h1 h2,
      s.data = [y1, y2, y3, y4, '-', o1, o2, '-', d1, d2, ' ', h1, h2] ∧
      [y1, y2, y3, y4, o1, o2, d1, d2, h1, h2].all Char.isDigit = true := by
  unfold matchDateHour at h
  split at h
  · next y1 y2 y3 y4 o1 o2 d1 d2 h1 h2 heq =>
      exact ⟨y1, y2, y3, y4, o1, o2, d1, d2, h1, h2, heq, h⟩
  · exact absurd h (by simp)

theorem matchDateHourMinute_shape {s : String} (h : matchDateHourMinute s = true) :
    ∃ y1 y2 y3 y4 o1 o2 d1 d2 h1 h2 n1 n2,
      s.data = [y1, y2, y3, y4, '-', o1, o2, '-', d1, d2, ' ', h1, h2, ':', n1, n2] ∧
      [y1, y2, y3, y4, o1, o2, d1, d2, h1, h2, n1, n2].all Char.isDigit = true := by
  unfold matchDateHourMinute at h
  split at h
  · next y1 y2 y3 y4 o1 o2 d1 d2 h1 h2 n1 n2 heq =>
      exact ⟨y1, y2, y3, y4, o1, o2, d1, d2, h1, h2, n1, n2, heq, h⟩
  · exact absurd h (by simp)

theorem matchFullTs_shape {s : String} (h : matchFullTs s = true) :
    ∃ y1 y2 y3 y4 o1 o2 d1 d2 h1 h2 n1 n2 p1 p2,
      s.data = [y1, y2, y3, y4, '-', o1, o2, '-', d1, d2, ' ', h1, h2, ':', n1, n2, ':', p1, p2] ∧
      [y1, y2, y3, y4, o1, o2, d1, d2, h1, h2, n1, n2, p1, p2].all Char.isDigit = true := by
  unfold matchFullTs at h
  split at h
  · next y1 y2 y3 y4 o1 o2 d1 d2 h1 h2 n1 n2 p1 p2 heq =>
      exact ⟨y1, y2, y3, y4, o1, o2, d1, d2, h1, h2, n1, n2, p1, p2, heq, h⟩
  · exact absurd h (by simp)

/-! ## Concrete database states used by the witnesses and counterexamples -/

def exRow (n : Option String) (k : Option Int) (fd : Option String) (sid : Option String) :
    Row :=
  { name := n, kudos := k, folder_date := fd, sync_id := sid }

/-- `XBLTotal` empty, `XBLTotal1` present (with a capture-instant column and a
row) whose `folder_date` falls exactly in the requested hour. -/
def exDbC1 : DB :=
  { xbltotal := { rows := [] },
    xbltotal1 := some { rows := [exRow (some "A") (some 70) (some "2024-11-26 17:03:21") (some "s1")] },
    sync := [("s1", "2024-11-26 17:00:00")] }

/-- A database whose only `XBLTotal` row was captured at 17:03:21. -/
def exDbC2 : DB :=
  { xbltotal := { rows := [exRow (some "A") (some 70) (some "2024-11-26 17:03:21") (some "s1")] },
    sync := [("s1", "2024-11-26 17:00:00")] }

/-! ## C1 -/

/-- C1: the claim says `getClosestFolderDateHour` pools capture instants from
every existing table; the code's two subqueries read only `XBLTotal`.  Here
`XBLTotal1` exists, has the capture-instant column, and holds a row whose
`folder_date` matches the requested hour prefix exactly, yet resolution
returns `null` because `XBLTotal` itself has no rows. -/
theorem c1_pool_is_xbltotal_only :
    getClosestFolderDateHour exDbC1 "2024-11-26 17" = none ∧
    (∃ td, exDbC1.xbltotal1 = some td ∧ td.hasFolderDate = true ∧
      ∃ r ∈ td.rows, ∃ fd, r.folder_date = some fd ∧
        likePrefix (strTake (padTarget "2024-11-26 17") 13) fd = true) := by
  refine ⟨by decide, ?_⟩
  refine ⟨_, rfl, rfl, exRow (some "A") (some 70) (some "2024-11-26 17:03:21") (some "s1"),
    by decide, "2024-11-26 17:03:21", rfl, by decide⟩

/-! ## C2 -/

/-- JavaScript truthiness of `row.name` in the dedup loop. -/
def validName (r : Row) : Bool :=
  match r.name with
  | none => false
  | some n => n ≠ ""

def keyName (r : Row) : String :=
  match r.name with
  | none => ""
  | some n => n

/-- The rows carrying entity name `n`, in row order. -/
def groupN (n : String) (rows : List Row) : List Row :=
  rows.filter (fun r => r.name = some n)

/-- A capture instant the dedup comparison handles as the claim describes:
absent, empty, or a parseable timestamp (an unparseable non-empty string
would make both JavaScript `Date` comparisons false). -/
def fdOk (r : Row) : Bool :=
  match r.folder_date with
  | none => true
  | some s => s = "" || (epochOf s).isSome

/-- The recency key the dedup loop compares: `none` for an absent or empty
capture instant, otherwise its numeric instant. -/
def keyOf (r : Row) : Option Nat :=
  match r.folder_date with
  | none => none
  | some s => if s = "" then none else epochOf s

theorem optNatLt_none_right (a : Option Nat) : optNatLt a none = false := by
  cases a <;> rfl

theorem replCond_eq_key {e c : Row} (he : fdOk e = true) (hc : fdOk c = true) :
    replCond e c = optNatLt (keyOf e) (keyOf c) := by
  rcases hcf : c.folder_date with _ | cs
  · simp [replCond, keyOf, hcf, optNatLt_none_right]
  · unfold fdOk at hc
    rw [hcf] at hc
    by_cases hcs : cs = ""
    · simp [replCond, keyOf, hcf, hcs, optNatLt_none_right]
    · simp only [hcs, Bool.false_or] at hc
      obtain ⟨vc, hvc⟩ := Option.isSome_iff_exists.mp hc
      rcases hef : e.folder_date with _ | es
      · simp [replCond, keyOf, hcf, hef, hcs, hvc, optNatLt]
      · unfold fdOk at he
        rw [hef] at he
        by_cases hes : es = ""
        · simp [replCond, keyOf, hcf, hef, hcs, hes, hvc, optNatLt]
        · simp only [hes, Bool.false_or] at he
          obtain ⟨ve, hve⟩ := Option.isSome_iff_exists.mp he
          simp [replCond, keyOf, hcf, hef, hcs, hes, hvc, hve, optNatLt]

/-- The dedup association list as an `accumulate` over the truthy-named rows. -/
def dedupAcc (rows : List Row) : List (String × Row) :=
  accumulate pickLater keyName id (rows.filter validName)

theorem dedupe_fold_eq_accumulate (rows : List Row) :
    dedupeByName rows = (dedupAcc rows).map Prod.snd := by
  unfold dedupeByName dedupAcc accumulate
  congr 1
  suffices h : ∀ acc : List (String × Row),
      rows.foldl (fun acc r =>
        match r.name with
        | none => acc
        | some n => if n = "" then acc else upsert pickLater n r acc) acc =
      (rows.filter validName).foldl
        (fun acc r => upsert pickLater (keyName r) (id r) acc) acc by
    exact h []
  induction rows with
  | nil => intro acc; rfl
  | cons r rest ih =>
      intro acc
      rcases hr : r.name with _ | n
      · have hv : validName r = false := by simp [validName, hr]
        simp [List.filter_cons, hv, hr, ih]
      · by_cases hn : n = ""
        · have hv : validName r = false := by simp [validName, hr, hn]
          simp [List.filter_cons, hv, hr, hn, ih]
        · have hv : validName r = true := by simp [validName, hr, hn]
          have hk : keyName r = n := by simp [keyName, hr]
          simp [List.filter_cons, hv, hr, hn, hk, ih]

theorem validFilter_eq_groupN (rows : List Row) (k : String) (hk : k ≠ "") :
    (rows.filter validName).filter (fun r => keyName r = k) = groupN k rows := by
  induction rows with
  | nil => rfl
  | cons r rest ih =>
      simp only [groupN] at ih ⊢
      rcases hr : r.name with _ | n
      · have hv : validName r = false := by simp [validName, hr]
        simp [List.filter_cons, hv, hr, ih]
      · by_cases hn : n = ""
        · have hv : validName r = false := by simp [validName, hr, hn]
          have hne : ¬r.name = some k := by rw [hr, hn]; simp [Ne.symm hk]
          simp [List.filter_cons, hv, hne, ih]
        · have hv : validName r = true := by simp [validName, hr, hn]
          have hkn : keyName r = n := by simp [keyName, hr]
          by_cases hnk : n = k
          · subst hnk
            simp [List.filter_cons, hv, hkn, hr, ih]
          · have hne : ¬r.name = some k := by rw [hr]; simp [hnk]
            simp [List.filter_cons, hv, hkn, hnk, hne, ih]

theorem dedupAcc_lookup (rows : List Row) (k : String) (hk : k ≠ "") :
    alookup k (dedupAcc rows) = groupFold pickLater (groupN k rows) := by
  rw [dedupAcc, alookup_accumulate, groupVals_eq_map_filter, List.map_id,
    validFilter_eq_groupN rows k hk]

theorem dedupAcc_lookup_empty (rows : List Row) :
    alookup "" (dedupAcc rows) = none := by
  rw [dedupAcc, alookup_accumulate, groupVals_eq_map_filter, List.map_id]
  suffices h : (rows.filter validName).filter (fun r => keyName r = "") = [] by
    rw [h]; rfl
  rw [List.filter_eq_nil_iff]
  intro r hr
  have hv := (List.mem_filter.mp hr).2
  rcases hrn : r.name with _ | n
  · simp [validName, hrn] at hv
  · have hn : n ≠ "" := by
      by_contra hcon
      simp [validName, hrn, hcon] at hv
    simp [keyName, hrn, hn]

theorem pickLater_picks (a x : Row) : pickLater a x = a ∨ pickLater a x = x := by
  unfold pickLater
  by_cases h : replCond a x = true <;> simp [h]

theorem dedupAcc_entry_char (rows : List Row) (k : String) (v : Row)
    (hlook : alookup k (dedupAcc rows) = some v) :
    k ≠ "" ∧ v ∈ groupN k rows ∧ v.name = some k := by
  have hk : k ≠ "" := by
    rintro rfl
    rw [dedupAcc_lookup_empty] at hlook
    cases hlook
  rw [dedupAcc_lookup rows k hk] at hlook
  cases hg : groupN k rows with
  | nil => rw [hg] at hlook; cases hlook
  | cons g0 grest =>
      rw [hg] at hlook
      simp only [groupFold, Option.some.injEq] at hlook
      have hvmem : v ∈ g0 :: grest := by
        rw [← hlook]
        exact foldl_pick_mem pickLater pickLater_picks grest g0
      have hmem2 : v ∈ groupN k rows := by rw [hg]; exact hvmem
      have hname : v.name = some k := by
        have hcond := (List.mem_filter.mp hmem2).2
        simpa using hcond
      exact ⟨hk, hvmem, hname⟩

/-- C7: deduplication in the `:date` endpoint drops every row with a null or
empty name; among the survivors each name appears once, and the kept row for
a name is the first row of that name's group attaining the maximal capture
instant — so strictly later capture instants win, while ties and absent
instants keep the first-encountered row.  (Stated over row lists whose
capture instants are absent, empty or parseable, the cases the comparison
`new Date(a) > new Date(b)` actually orders.) -/
theorem c7_dedupe_latest_per_name (rows : List Row)
    (hwf : ∀ r ∈ rows, fdOk r = true) :
    (∀ r ∈ dedupeByName rows, ∃ n, r.name = some n ∧ n ≠ "") ∧
    ((dedupeByName rows).map (fun r => r.name)).Nodup ∧
    (∀ n, n ≠ "" → ∀ r ∈ dedupeByName rows, r.name = some n →
      ∃ l₁ l₂, groupN n rows = l₁ ++ r :: l₂ ∧
        (∀ x ∈ l₁, optNatLt (keyOf x) (keyOf r) = true) ∧
        (∀ x ∈ l₂, optNatLt (keyOf r) (keyOf x) = false)) ∧
    (∀ n, n ≠ "" → groupN n rows ≠ [] → ∃ r ∈ dedupeByName rows, r.name = some n) := by
  have hded := dedupe_fold_eq_accumulate rows
  have hnd : ((dedupAcc rows).map Prod.fst).Nodup := nodup_keys_accumulate _ _ _ _
  have hmem_char : ∀ p ∈ dedupAcc rows,
      p.1 ≠ "" ∧ p.2 ∈ groupN p.1 rows ∧ p.2.name = some p.1 := by
    intro p hp
    have hlook : alookup p.1 (dedupAcc rows) = some p.2 :=
      alookup_eq_some_of_mem hnd (by simpa using hp)
    exact dedupAcc_entry_char rows p.1 p.2 hlook
  refine ⟨?_, ?_, ?_, ?_⟩
  · intro r hr
    rw [hded] at hr
    obtain ⟨p, hp, rfl⟩ := List.mem_map.mp hr
    obtain ⟨hk, _, hname⟩ := hmem_char p hp
    exact ⟨p.1, hname, hk⟩
  · rw [hded, List.map_map]
    have hmapeq : (dedupAcc rows).map ((fun r => r.name) ∘ Prod.snd) =
        (dedupAcc rows).map (Option.some ∘ Prod.fst) :=
      List.map_congr_left (fun p hp => (hmem_char p hp).2.2)
    rw [hmapeq, ← List.map_map]
    exact hnd.map (Option.some_injective _)
  · intro n hn r hr hname
    rw [hded] at hr
    obtain ⟨p, hp, rfl⟩ := List.mem_map.mp hr
    obtain ⟨hk, hmem, hpname⟩ := hmem_char p hp
    have hkn : p.1 = n := by
      rw [hpname] at hname
      exact Option.some.inj hname
    subst hkn
    have hlook : alookup p.1 (dedupAcc rows) = some p.2 :=
      alookup_eq_some_of_mem hnd (by simpa using hp)
    rw [dedupAcc_lookup rows p.1 hk] at hlook
    cases hg : groupN p.1 rows with
    | nil =>
        rw [hg] at hlook
        cases hlook
    | cons g0 grest =>
        rw [hg] at hlook
        simp only [groupFold, Option.some.injEq] at hlook
        have hfd : ∀ x ∈ g0 :: grest, fdOk x = true := by
          intro x hx
          apply hwf
          have hx2 : x ∈ groupN p.1 rows := by rw [hg]; exact hx
          simp only [groupN] at hx2
          exact List.filter_subset' rows hx2
        have h1 : grest.foldl pickLater g0 =
            grest.foldl (fun a x => if replCond a x then x else a) g0 := rfl
        have hcongr : grest.foldl pickLater g0 =
            grest.foldl (fun a x => if optNatLt (keyOf a) (keyOf x) then x else a) g0 := by
          rw [h1]
          exact foldl_pick_congr replCond (fun a x => optNatLt (keyOf a) (keyOf x)) grest g0
            (fun a ha b hb => replCond_eq_key (hfd a ha) (hfd b hb))
        rw [hcongr] at hlook
        obtain ⟨l₁, l₂, heq, hl1, hl2⟩ := foldl_pick_decomp
          (fun a x => optNatLt (keyOf a) (keyOf x))
          (fun a b c h1 h2 => optNatLt_trans _ _ _ h1 h2)
          (fun a b c h1 h2 => optNatLt_mix _ _ _ h1 h2)
          grest g0 p.2 hlook
        exact ⟨l₁, l₂, heq, hl1, hl2⟩
  · intro n hn hne
    cases hg : groupN n rows with
    | nil => exact absurd hg hne
    | cons g0 grest =>
        have hlook : alookup n (dedupAcc rows) = some (grest.foldl pickLater g0) := by
          rw [dedupAcc_lookup rows n hn, hg]
          rfl
        have hmem := mem_of_alookup_eq_some hlook
        have hout : grest.foldl pickLater g0 ∈ dedupeByName rows := by
          rw [hded]
          exact List.mem_map.mpr ⟨(n, grest.foldl pickLater g0), hmem, rfl⟩
        have hname : (grest.foldl pickLater g0).name = some n :=
          (hmem_char (n, grest.foldl pickLater g0) hmem).2.2
        exact ⟨_, hout, hname⟩

/-- The rows of the claim's example: A at instant 10, A at instant 20, B at
instant 5 (encoded as hours of one day). -/
def exRowsC7 : List Row :=
  [exRow (some "A") none (some "2024-11-26 10:00:00") none,
   exRow (some "A") none (some "2024-11-26 20:00:00") none,
   exRow (some "B") none (some "2024-11-26 05:00:00") none]

/-- C7 witness: the example dedupes to A-at-20 then B-at-5, and the kept A
row decomposes A's group with the earlier instant strictly below it. -/
theorem c7_witness :
    dedupeByName exRowsC7 =
      [exRow (some "A") none (some "2024-11-26 20:00:00") none,
       exRow (some "B") none (some "2024-11-26 05:00:00") none] ∧
    (∃ l₁ l₂,
      groupN "A" exRowsC7 =
        l₁ ++ (exRow (some "A") none (some "2024-11-26 20:00:00") none) :: l₂ ∧
      (∀ x ∈ l₁, optNatLt (keyOf x)
        (keyOf (exRow (some "A") none (some "2024-11-26 20:00:00") none)) = true) ∧
      (∀ x ∈ l₂, optNatLt (keyOf (exRow (some "A") none (some "2024-11-26 20:00:00") none))
        (keyOf x) = false)) :=
  ⟨by decide,
    (c7_dedupe_latest_per_name exRowsC7 (by decide)).2.2.1 "A" (by decide) _
      (by decide) (by decide)⟩

/-! ## C6 -/

/-- C6: the resolver canonicalizes by fixed default padding before hour
truncation: a date-only input behaves exactly as its noon-padded form, and a
date+hour input exactly as its `:00:00`-padded form (and those are the padded
strings the code builds). -/
theorem c6_default_padding (db : DB) (s : String) :
    (matchDateOnly s = true →
      padTarget s = s ++ " 12:00:00" ∧
      getClosestFolderDateHour db s = getClosestFolderDateHour db (s ++ " 12:00:00")) ∧
    (matchDateHour s = true →
      padTarget s = s ++ ":00:00" ∧
      getClosestFolderDateHour db s = getClosestFolderDateHour db (s ++ ":00:00")) := by
  constructor
  · intro h
    obtain ⟨y1, y2, y3, y4, o1, o2, d1, d2, hdata, -⟩ := matchDateOnly_shape h
    have hpad : padTarget s = s ++ " 12:00:00" := by simp [padTarget, h]
    have hd2 : (s ++ " 12:00:00").data =
        [y1, y2, y3, y4, '-', o1, o2, '-', d1, d2, ' ', '1', '2', ':', '0', '0', ':', '0', '0'] := by
      rw [show (s ++ " 12:00:00").data = s.data ++ (" 12:00:00").data from rfl, hdata]
      rfl
    have h1 : matchDateOnly (s ++ " 12:00:00") = false := by
      unfold matchDateOnly; rw [hd2]; rfl
    have h2 : matchDateHour (s ++ " 12:00:00") = false := by
      unfold matchDateHour; rw [hd2]; rfl
    have h3 : matchDateHourMinute (s ++ " 12:00:00") = false := by
      unfold matchDateHourMinute; rw [hd2]; rfl
    have hpad2 : padTarget (s ++ " 12:00:00") = s ++ " 12:00:00" := by
      simp [padTarget, h1, h2, h3]
    exact ⟨hpad, by simp only [getClosestFolderDateHour, hpad, hpad2]⟩
  · intro h
    obtain ⟨y1, y2, y3, y4, o1, o2, d1, d2, h1c, h2c, hdata, -⟩ := matchDateHour_shape h
    have hno : matchDateOnly s = false := by
      unfold matchDateOnly; rw [hdata]; rfl
    have hpad : padTarget s = s ++ ":00:00" := by simp [padTarget, hno, h]
    have hd2 : (s ++ ":00:00").data =
        [y1, y2, y3, y4, '-', o1, o2, '-', d1, d2, ' ', h1c, h2c, ':', '0', '0', ':', '0', '0'] := by
      rw [show (s ++ ":00:00").data = s.data ++ (":00:00").data from rfl, hdata]
      rfl
    have h1 : matchDateOnly (s ++ ":00:00") = false := by
      unfold matchDateOnly; rw [hd2]; rfl
    have h2 : matchDateHour (s ++ ":00:00") = false := by
      unfold matchDateHour; rw [hd2]; rfl
    have h3 : matchDateHourMinute (s ++ ":00:00") = false := by
      unfold matchDateHourMinute; rw [hd2]; rfl
    have hpad2 : padTarget (s ++ ":00:00") = s ++ ":00:00" := by
      simp [padTarget, h1, h2, h3]
    exact ⟨hpad, by simp only [getClosestFolderDateHour, hpad, hpad2]⟩

/-! ## C5 -/

theorem startsWithL_take {p : List Char} :
    ∀ {s : List Char}, startsWithL p s = true → s.take p.length = p := by
  induction p with
  | nil => intro s _; simp
  | cons a ps ih =>
      intro s h
      cases s with
      | nil => simp [startsWithL] at h
      | cons c cs =>
          simp only [startsWithL, Bool.and_eq_true, decide_eq_true_eq] at h
          obtain ⟨rfl, hrest⟩ := h
          simp [List.take, ih hrest]

/-- Any recognized-precision input pads to a 19-character canonical instant. -/
theorem padTarget_len19 {t : String}
    (hv : matchDateOnly t = true ∨ matchDateHour t = true ∨
      matchDateHourMinute t = true ∨ matchFullTs t = true) :
    (padTarget t).data.length = 19 := by
  rcases hv with h | h | h | h
  · obtain ⟨y1, y2, y3, y4, o1, o2, d1, d2, hdata, -⟩ := matchDateOnly_shape h
    have hpad : padTarget t = t ++ " 12:00:00" := by simp [padTarget, h]
    rw [hpad, show (t ++ " 12:00:00").data = t.data ++ (" 12:00:00").data from rfl, hdata]
    rfl
  · obtain ⟨y1, y2, y3, y4, o1, o2, d1, d2, h1c, h2c, hdata, -⟩ := matchDateHour_shape h
    have hno : matchDateOnly t = false := by unfold matchDateOnly; rw [hdata]; rfl
    have hpad : padTarget t = t ++ ":00:00" := by simp [padTarget, hno, h]
    rw [hpad, show (t ++ ":00:00").data = t.data ++ (":00:00").data from rfl, hdata]
    rfl
  · obtain ⟨y1, y2, y3, y4, o1, o2, d1, d2, h1c, h2c, n1, n2, hdata, -⟩ :=
      matchDateHourMinute_shape h
    have hno : matchDateOnly t = false := by unfold matchDateOnly; rw [hdata]; rfl
    have hno2 : matchDateHour t = false := by unfold matchDateHour; rw [hdata]; rfl
    have hpad : padTarget t = t ++ ":00" := by simp [padTarget, hno, hno2, h]
    rw [hpad, show (t ++ ":00").data = t.data ++ (":00").data from rfl, hdata]
    rfl
  · obtain ⟨y1, y2, y3, y4, o1, o2, d1, d2, h1c, h2c, n1, n2, p1, p2, hdata, -⟩ :=
      matchFullTs_shape h
    have hno : matchDateOnly t = false := by unfold matchDateOnly; rw [hdata]; rfl
    have hno2 : matchDateHour t = false := by unfold matchDateHour; rw [hdata]; rfl
    have hno3 : matchDateHourMinute t = false := by unfold matchDateHourMinute; rw [hdata]; rfl
    have hpad : padTarget t = t := by simp [padTarget, hno, hno2, hno3]
    rw [hpad, hdata]
    rfl

/-- C5: for a recognized-precision target, an exact hour-prefix match among
the stored capture instants wins outright — the resolver returns the
truncated target hour no matter how close other instants are; only when no
stored instant matches the hour prefix does it return the hour of a stored
instant minimizing the absolute time difference. -/
theorem c5_prefix_match_precedence (db : DB) (t : String)
    (hv : matchDateOnly t = true ∨ matchDateHour t = true ∨
      matchDateHourMinute t = true ∨ matchFullTs t = true) :
    ((∃ fd ∈ poolOf db, likePrefix (strTake (padTarget t) 13) fd = true) →
        getClosestFolderDateHour db t = some (strTake (padTarget t) 13)) ∧
    ((∀ fd ∈ poolOf db, likePrefix (strTake (padTarget t) 13) fd = false) →
        poolOf db ≠ [] →
        ∃ m ∈ poolOf db, getClosestFolderDateHour db t = some (strTake m 13) ∧
          ∀ fd ∈ poolOf db,
            optNatLe (timeDiff (padTarget t) m) (timeDiff (padTarget t) fd) = true) := by
  have hlen : (padTarget t).data.length = 19 := padTarget_len19 hv
  constructor
  · rintro ⟨fd0, hfd0, hpref⟩
    have hne : (poolOf db).filter (fun fd => likePrefix (strTake (padTarget t) 13) fd) ≠ [] := by
      intro hnil
      have hq := List.filter_eq_nil_iff.mp hnil fd0 hfd0
      simp [hpref] at hq
    cases hhead : (poolOf db).filter (fun fd => likePrefix (strTake (padTarget t) 13) fd) with
    | nil => exact absurd hhead hne
    | cons hd tl =>
        have hhd : likePrefix (strTake (padTarget t) 13) hd = true := by
          have hmem : hd ∈ (poolOf db).filter
              (fun fd => likePrefix (strTake (padTarget t) 13) fd) := by
            rw [hhead]; exact List.mem_cons_self hd tl
          exact (List.mem_filter.mp hmem).2
        have h13 : (strTake (padTarget t) 13).data.length = 13 := by
          simp [strTake, List.length_take, hlen]
        have h1 : hd.data.take ((strTake (padTarget t) 13).data.length) =
            (strTake (padTarget t) 13).data := startsWithL_take hhd
        rw [h13] at h1
        have htake : strTake hd 13 = strTake (padTarget t) 13 := by
          show (⟨hd.data.take 13⟩ : String) = _
          rw [h1]
        simp only [getClosestFolderDateHour, hhead, List.head?_cons]
        simp [htake]
  · intro hnone hpool
    have hfil : (poolOf db).filter (fun fd => likePrefix (strTake (padTarget t) 13) fd) = [] := by
      rw [List.filter_eq_nil_iff]
      intro fd hfd
      simp [hnone fd hfd]
    obtain ⟨m, hm, hmem⟩ := firstBest_mem
      (fun a b => optNatLt (timeDiff (padTarget t) a) (timeDiff (padTarget t) b))
      (poolOf db) hpool
    refine ⟨m, hmem, ?_, ?_⟩
    · simp only [getClosestFolderDateHour, hfil, List.head?_nil, hm]
      rfl
    · intro fd hfd
      have hmin := firstBest_min
        (fun a b => optNatLt (timeDiff (padTarget t) a) (timeDiff (padTarget t) b))
        (fun a => optNatLt_irr _)
        (fun a b c h1 h2 => optNatLt_trans _ _ _ h1 h2)
        (fun a b c h1 h2 => optNatLt_mix _ _ _ h1 h2)
        (poolOf db) m hm fd hfd
      simp only [optNatLe, hmin]
      rfl

/-- C5 witness: the stored instant 17:59:59 is one second from the 18:00:00
target, but 18:59:00 carries the matching hour prefix and wins. -/
theorem c5_witness :
    getClosestFolderDateHour
      { xbltotal := { rows :=
          [exRow (some "A") (some 1) (some "2024-11-26 17:59:59") (some "s1"),
           exRow (some "B") (some 2) (some "2024-11-26 18:59:00") (some "s1")] },
        sync := [] } "2024-11-26 18" = some "2024-11-26 18" := by
  have h := (c5_prefix_match_precedence
    { xbltotal := { rows :=
        [exRow (some "A") (some 1) (some "2024-11-26 17:59:59") (some "s1"),
         exRow (some "B") (some 2) (some "2024-11-26 18:59:00") (some "s1")] },
      sync := [] } "2024-11-26 18" (Or.inr (Or.inl (by decide)))).1
    ⟨"2024-11-26 18:59:00", by decide, by decide⟩
  exact h.trans (by decide)

/-- C6 witness: concrete padded forms at the two partial precisions. -/
theorem c6_witness :
    padTarget "2024-11-26" = "2024-11-26 12:00:00" ∧
    padTarget "2024-11-26 17" = "2024-11-26 17:00:00" := by
  have h1 := (c6_default_padding exDbC2 "2024-11-26").1 (by decide)
  have h2 := (c6_default_padding exDbC2 "2024-11-26 17").2 (by decide)
  exact ⟨h1.1.trans (by decide), h2.1.trans (by decide)⟩

/-! ## C9 -/

theorem mem_ite_singleton {c : Prop} [Decidable c] {m a : String}
    (h : m ∈ (if c then [a] else [])) : m = a := by
  by_cases hc : c <;> simp [hc] at h
  exact h

/-- Every name in this database's `sqlite_master` passes the allow-list. -/
theorem existing_allowListOk (db : DB) (m : String) (hm : m ∈ existingTables db) :
    allowListOk m = true := by
  simp only [existingTables, List.append_assoc, List.mem_append] at hm
  rcases hm with hm | hm | hm | hm
  · have h2 : m = "XBLTotal" ∨ m = "Sync" := by simpa using hm
    rcases h2 with rfl | rfl <;> decide
  · rw [mem_ite_singleton hm]; decide
  · rw [mem_ite_singleton hm]; decide
  · rw [mem_ite_singleton hm]; decide

/-- C9: a table name containing any character outside `[a-zA-Z0-9_]` is
rejected by both probes: `columnExists` returns `false` before the name can
reach query text, and `tableExists` (whose name is bound as an ordinary
parameter, never interpolated) finds no such table. -/
theorem c9_bad_identifier_rejected (db : DB) (n c : String)
    (hbad : ∃ ch ∈ n.data, (ch.isAlphanum || ch = '_') = false) :
    tableExists db n = false ∧ columnExists db n c = false := by
  obtain ⟨ch, hmem, hch⟩ := hbad
  have hall : n.data.all (fun ch => ch.isAlphanum || ch = '_') = false := by
    rw [List.all_eq_false]
    exact ⟨ch, hmem, by simp [hch]⟩
  have hok : allowListOk n = false := by simp [allowListOk, hall]
  constructor
  · have hnmem : n ∉ existingTables db := by
      intro hin
      have : allowListOk n = true := existing_allowListOk db n hin
      simp [this] at hok
    exact decide_eq_false hnmem
  · simp [columnExists, hok]

/-- C9 witness: the database table set is irrelevant; a name with a space and
one with a semicolon are both refused. -/
theorem c9_witness :
    (tableExists exDbC2 "XBL Total" = false ∧ columnExists exDbC2 "XBL Total" "name" = false) ∧
    (tableExists exDbC2 "XBLTotal; DROP TABLE Sync" = false ∧
      columnExists exDbC2 "XBLTotal; DROP TABLE Sync" "name" = false) :=
  ⟨c9_bad_identifier_rejected exDbC2 "XBL Total" "name" ⟨' ', by decide, by decide⟩,
    c9_bad_identifier_rejected exDbC2 "XBLTotal; DROP TABLE Sync" "name"
      ⟨';', by decide, by decide⟩⟩

/-! ## C3 -/

theorem sqlMaxList_of_groupFold {l : List (Option Int)} {v : Option Int}
    (h : groupFold sqlMaxCombine l = some v) : sqlMaxList l = v := by
  cases l with
  | nil => simp [groupFold] at h
  | cons x xs =>
      simp only [groupFold, Option.some.injEq] at h
      simpa [sqlMaxList, sqlMaxCombine] using h

/-- Entity `A` appears under the latest sync in `XBLTotal` with kudos 50 and
in `XBLTotal1` with kudos 70. -/
def exDbC3 : DB :=
  { xbltotal := { rows := [exRow (some "A") (some 50) (some "2024-11-26 17:00:00") (some "s1")] },
    xbltotal1 := some { rows := [exRow (some "A") (some 70) (some "2024-11-26 17:00:00") (some "s1")] },
    sync := [("s1", "2024-11-26 17:00:00")] }

/-- C3: for every database state the chart endpoint's top-N selection returns
at most 10 rows with pairwise-distinct entity names, and the metric value
paired with each returned name is the SQL `MAX` of that entity's kudos values
across the pooled per-table union — never their sum. -/
theorem c3_top10_distinct_max (db : DB) :
    (selectTop10 db).length ≤ 10 ∧
    ((selectTop10 db).map Prod.fst).Nodup ∧
    (∀ p ∈ selectTop10 db,
      sqlMaxList (groupVals Prod.fst Prod.snd p.1 (topPool db)) = p.2) := by
  by_cases htab : top10Tables db = []
  · refine ⟨?_, ?_, ?_⟩ <;> simp [selectTop10, htab]
  · have hsort := sortL_perm (fun y x : Option String × Option Int => !optIntLt y.2 x.2)
      (top10Groups db)
    have hsel : selectTop10 db =
        (sortL (fun y x => !optIntLt y.2 x.2) (top10Groups db)).take 10 := by
      simp [selectTop10, htab]
    refine ⟨?_, ?_, ?_⟩
    · rw [hsel]
      simp only [List.length_take]
      omega
    · rw [hsel]
      have hnd : ((top10Groups db).map Prod.fst).Nodup :=
        nodup_keys_accumulate sqlMaxCombine Prod.fst Prod.snd (topPool db)
      have hnd2 : ((sortL (fun y x => !optIntLt y.2 x.2) (top10Groups db)).map Prod.fst).Nodup :=
        ((hsort.map Prod.fst).nodup_iff).mpr hnd
      exact hnd2.sublist ((List.take_sublist _ _).map Prod.fst)
    · intro p hp
      rw [hsel] at hp
      have hp2 : p ∈ sortL (fun y x => !optIntLt y.2 x.2) (top10Groups db) :=
        List.take_subset _ _ hp
      have hp3 : p ∈ top10Groups db := hsort.mem_iff.mp hp2
      have hnd : ((top10Groups db).map Prod.fst).Nodup :=
        nodup_keys_accumulate sqlMaxCombine Prod.fst Prod.snd (topPool db)
      have hlook : alookup p.1 (top10Groups db) = some p.2 :=
        alookup_eq_some_of_mem hnd (by simpa using hp3)
      rw [top10Groups, alookup_accumulate] at hlook
      exact sqlMaxList_of_groupFold hlook

/-- C3 witness: with values 50 and 70 for the same entity the selector keeps
70 — the SQL `MAX`, not the sum 120. -/
theorem c3_witness :
    ((some "A", (some 70 : Option Int)) ∈ selectTop10 exDbC3) ∧
    sqlMaxList (groupVals Prod.fst Prod.snd (some "A") (topPool exDbC3)) = some 70 :=
  ⟨by decide, (c3_top10_distinct_max exDbC3).2.2 (some "A", some 70) (by decide)⟩

/-! ## C4 -/

theorem t2_lookup (db : DB) (n day : String) (hn : n ≠ "")
    (hg : dayGroup db n day ≠ []) :
    alookup (n, some day) (t2acc db (top10Users db)) =
      some (sqlMaxText ((dayGroup db n day).map HRow.fd)) := by
  rw [t2acc, alookup_accumulate, groupVals_eq_map_filter]
  have himp : ∀ h : HRow,
      (decide (((trimSp h.hname, sqliteDate h.fd) : String × Option String) = (n, some day))) = true →
      (decide (trimSp h.hname ≠ "")) = true := by
    intro h hh
    have heq := of_decide_eq_true hh
    have h1 : trimSp h.hname = n := congrArg Prod.fst heq
    simp [h1, hn]
  rw [filter_filter_implied _ _ himp]
  have hcong : (histPool db (top10Users db)).filter
      (fun h => decide ((trimSp h.hname, sqliteDate h.fd) = ((n, some day) : String × Option String))) =
      dayGroup db n day := by
    rw [dayGroup]
    apply List.filter_congr
    intro h _
    by_cases h1 : trimSp h.hname = n <;> by_cases h2 : sqliteDate h.fd = some day <;>
      simp [Prod.ext_iff, h1, h2]
  rw [hcong]
  cases hgg : dayGroup db n day with
  | nil => exact absurd hgg hg
  | cons g0 grest => simp [groupFold, sqlMaxText]

/-- Two tied captures of entity A at 11:00 (same capture instant from two
physical rows) plus an earlier 10:00 capture. -/
def exDbC4 : DB :=
  { xbltotal := { rows :=
      [exRow (some "A") (some 50) (some "2024-11-26 10:00:00") (some "s1"),
       exRow (some "A") (some 60) (some "2024-11-26 11:00:00") (some "s1"),
       exRow (some "A") (some 60) (some "2024-11-26 11:00:00") (some "s1")] },
    sync := [("s1", "2024-11-26 11:00:00")] }

/-- The same shape without the tie: a unique latest capture per day. -/
def exDbC4w : DB :=
  { xbltotal := { rows :=
      [exRow (some "A") (some 50) (some "2024-11-26 10:00:00") (some "s1"),
       exRow (some "A") (some 60) (some "2024-11-26 11:00:00") (some "s1")] },
    sync := [("s1", "2024-11-26 11:00:00")] }

/-- C4 counterexample: entity A has three qualifying captures on 2024-11-26
with instants 10:00 < 11:00 = 11:00 (the claim's `T1 < T2 <= ... <= Tmax`
explicitly allows tied maxima); the endpoint emits TWO points for that
(entity, day), one per row tying for the maximal capture instant, not
exactly one. -/
theorem c4_counterexample_tied_max :
    ((seriesFor exDbC4 "A").filter (fun p => p.1 = some "2024-11-26")).length = 2 ∧
    seriesFor exDbC4 "A" = [(some "2024-11-26", 60), (some "2024-11-26", 60)] := by
  exact ⟨by rfl, by rfl⟩

/-- C4 amended: for an entity and calendar day, the chart endpoint's series
carries one point per pooled row attaining the maximal capture instant of
that (entity, day) group; hence when exactly one row attains the maximum —
in particular whenever the qualifying capture instants that day are pairwise
distinct — the series has exactly one point for that day, whose value is
that latest row's metric (SQL NULL coalesced to 0). -/
theorem c4_amended_latest_sample_wins (db : DB) (n day : String) (r : HRow)
    (hn : n ≠ "")
    (hr : (dayGroup db n day).filter
        (fun h => h.fd = sqlMaxText ((dayGroup db n day).map HRow.fd)) = [r]) :
    (seriesFor db n).filter (fun p => p.1 = some day) =
      [(some day, r.kudos.getD 0)] := by
  have hrmem0 : r ∈ (dayGroup db n day).filter
      (fun h => h.fd = sqlMaxText ((dayGroup db n day).map HRow.fd)) := by
    rw [hr]
    exact List.mem_cons_self _ _
  have hrg : r ∈ dayGroup db n day := (List.mem_filter.mp hrmem0).1
  obtain ⟨hrpool, hrc⟩ :=
    List.mem_filter.mp (show r ∈ (histPool db (top10Users db)).filter _ from hrg)
  simp only [Bool.and_eq_true, decide_eq_true_eq] at hrc
  obtain ⟨hrname, hrdate⟩ := hrc
  have hgne : dayGroup db n day ≠ [] := by
    intro he
    rw [he] at hrg
    simp at hrg
  have hpoolne : histPool db (top10Users db) ≠ [] := by
    intro he
    apply hgne
    simp [dayGroup, he]
  have hlook := t2_lookup db n day hn hgne
  rw [seriesFor, chartEndpoint_run db hpoolne, series_char _ n hn]
  rw [List.filter_map, List.filter_filter]
  have hfun : (fun a : CRow =>
      ((fun p : Option String × Int => decide (p.1 = some day)) ∘
        fun row : CRow => (row.cdate, row.ckudos.getD 0)) a &&
        decide (trimSp a.cname = n)) =
      (fun a : CRow => decide (a.cdate = some day) && decide (trimSp a.cname = n)) := by
    funext a
    simp [Function.comp]
  rw [hfun]
  have hperm : ((chartRows db (top10Users db)).filter
      (fun a : CRow => decide (a.cdate = some day) && decide (trimSp a.cname = n))).Perm
      ((chartSelect db (top10Users db)).filter
        (fun a : CRow => decide (a.cdate = some day) && decide (trimSp a.cname = n))) :=
    (sortL_perm crowKeep (chartSelect db (top10Users db))).filter _
  have hcompute : (chartSelect db (top10Users db)).filter
      (fun a : CRow => decide (a.cdate = some day) && decide (trimSp a.cname = n)) =
      [⟨sqliteDate r.fd, trimSp r.hname, r.kudos⟩] := by
    rw [chartSelect, List.filter_map]
    have hc1 : (histJoin db (top10Users db)).filter
        ((fun a : CRow => decide (a.cdate = some day) && decide (trimSp a.cname = n)) ∘
          (fun h : HRow => (⟨sqliteDate h.fd, trimSp h.hname, h.kudos⟩ : CRow))) =
        (histJoin db (top10Users db)).filter
          (fun h : HRow => decide (sqliteDate h.fd = some day) && decide (trimSp h.hname = n)) := by
      apply List.filter_congr
      intro h _
      simp [Function.comp, trimSp_idem]
    rw [hc1]
    rw [histJoin, List.filter_filter]
    have hc2 : ∀ a ∈ histPool db (top10Users db),
        ((fun h : HRow => decide (sqliteDate h.fd = some day) && decide (trimSp h.hname = n)) a &&
          (trimSp a.hname ≠ "" &&
            match sqliteDate a.fd with
            | none => false
            | some d =>
                decide (alookup (trimSp a.hname, some d) (t2acc db (top10Users db)) = some a.fd))) =
        (decide (a.fd = sqlMaxText ((dayGroup db n day).map HRow.fd)) &&
          (decide (trimSp a.hname = n) && decide (sqliteDate a.fd = some day))) := by
      intro a _
      by_cases h1 : trimSp a.hname = n
      · by_cases h2 : sqliteDate a.fd = some day
        · simp [h1, h2, hn, hlook, eq_comm]
        · simp [h1, h2]
      · simp [h1]
    rw [List.filter_congr hc2]
    rw [← List.filter_filter]
    have hdg : dayGroup db n day = (histPool db (top10Users db)).filter
        (fun h => decide (trimSp h.hname = n) && decide (sqliteDate h.fd = some day)) := rfl
    rw [← hdg, hr]
    rfl
  have hone : (chartRows db (top10Users db)).filter
      (fun a : CRow => decide (a.cdate = some day) && decide (trimSp a.cname = n)) =
      [⟨sqliteDate r.fd, trimSp r.hname, r.kudos⟩] :=
    List.perm_singleton.mp (hcompute ▸ hperm)
  rw [hone]
  simp [hrdate]

/-- C4 witness: without a tie the series carries exactly the latest sample's
value for the day. -/
theorem c4_witness :
    (seriesFor exDbC4w "A").filter (fun p => p.1 = some "2024-11-26") =
      [(some "2024-11-26", 60)] :=
  c4_amended_latest_sample_wins exDbC4w "A" "2024-11-26"
    ⟨"2024-11-26 11:00:00", "A", some 60⟩ (by decide) (by rfl)

/-! ## C8 -/

/-- C8: a table that exists with entity-name, capture-instant and kudos
columns but no `sync_id` column is included in the chart endpoint's
historical-series union (its projected rows all reach the pooled union), yet
is excluded from the top-N/latest-sync union, which additionally requires
`sync_id`. -/
theorem c8_optional_sync_id_participation (db : DB) (t : TableId)
    (h1 : (chartChecks db t).present = true)
    (h2 : (chartChecks db t).hasName = true)
    (h3 : (chartChecks db t).hasFolderDate = true)
    (h4 : (chartChecks db t).hasKudos = true)
    (h5 : (chartChecks db t).hasSyncId = false) :
    t ∈ histTables db ∧ t ∉ top10Tables db ∧
    ∀ h ∈ histPart db (top10Users db) t, h ∈ histPool db (top10Users db) := by
  have htord : t ∈ tableOrder := by cases t <;> simp [tableOrder]
  have hmem : t ∈ histTables db :=
    List.mem_filter.mpr ⟨htord, by simp [h1, h2, h3, h4]⟩
  refine ⟨hmem, ?_, ?_⟩
  · intro hmem10
    have hcond := (List.mem_filter.mp hmem10).2
    simp [h1, h2, h4, h5] at hcond
  · intro h hh
    exact List.mem_flatten.mpr ⟨histPart db (top10Users db) t,
      List.mem_map_of_mem _ hmem, hh⟩

/-- `XBLTotal1` has name, capture instant and kudos but no `sync_id`
column; `XBLTotal` supplies the latest-sync top-10. -/
def exDbC8 : DB :=
  { xbltotal := { rows := [exRow (some "A") (some 50) (some "2024-11-26 17:00:00") (some "s1")] },
    xbltotal1 := some
      { hasSyncId := false,
        rows := [exRow (some "A") (some 70) (some "2024-11-26 17:00:00") none] },
    sync := [("s1", "2024-11-26 17:00:00")] }

/-- C8 witness: `XBLTotal1` (no `sync_id`) feeds the series union and its row
reaches the pooled historical data, while staying out of the top-10 union. -/
theorem c8_witness :
    TableId.xbltotal1 ∈ histTables exDbC8 ∧
    TableId.xbltotal1 ∉ top10Tables exDbC8 ∧
    (⟨"2024-11-26 17:00:00", "A", some 70⟩ : HRow) ∈ histPool exDbC8 (top10Users exDbC8) := by
  have h := c8_optional_sync_id_participation exDbC8 .xbltotal1
    (by decide) (by decide) (by decide) (by decide) (by decide)
  exact ⟨h.1, h.2.1, h.2.2 _ (by decide)⟩

/-! ## C10 -/

def emptyQuery : ListQuery := {}

/-- C10: with no `Sync` rows, `getLatestSyncId` is `null`, the listing
endpoint silently skips the latest-sync restriction, and a parameterless
request returns every stored `XBLTotal` row. -/
theorem c10_empty_sync_returns_all_rows (db : DB) (hsync : db.sync = []) :
    listXbltotal db emptyQuery = db.xbltotal.rows := by
  have hlatest : getLatestSyncId db = none := by
    simp [getLatestSyncId, hsync, firstBest]
  simp [listXbltotal, emptyQuery, isTruthy, hlatest]

/-- C10 witness: a two-sync-id row set with an empty `Sync` table comes back
whole. -/
theorem c10_witness :
    listXbltotal
      { xbltotal := { rows :=
          [exRow (some "A") (some 70) (some "2024-11-26 17:03:21") (some "s1"),
           exRow (some "B") (some 50) (some "2024-11-25 09:00:00") (some "s0")] },
        sync := [] } emptyQuery =
      [exRow (some "A") (some 70) (some "2024-11-26 17:03:21") (some "s1"),
       exRow (some "B") (some 50) (some "2024-11-25 09:00:00") (some "s0")] :=
  c10_empty_sync_returns_all_rows _ rfl
